import Mathlib

/-!
# Verification of the dependency-closure engine of `find_unblocked_orphans`

Shallow embedding of the core of the repository:

* the source↔binary package index (`DepChecker.__create_mapping`, `srpm`,
  `srpm_nvr_object`),
* the provide/require elision algorithm (`DepChecker.elide` in
  `find_unblocked_orphans.py`, `DepChecker.method_name23` in `deep_checker.py`,
  and their caller `find_dependent_packages`),
* the bounded breadth-first closure walk (`build_dep_map`, `allow_check`,
  `recursive_deps`),
* the metadata enrichment pipeline (`pagure_worker`, `PagureInfo`), and
* the JSON persistence layer (`save_to_json`).

The dnf `Query` collaborator is modelled as a structure carrying the list of
snapshot packages together with the two provide/require filters (the Package
Query capability of the spec); everything built on top of it is translated
from the Python source.  The walker's `while True` loop is embedded with an
explicit fuel parameter; `none` models non-termination within the given fuel
(or an uncaught `IndexError`, see `walk_loop`).
-/

/-- A binary or source package of the repository snapshot
(the fields of a dnf `Package` that the engine reads). -/
structure Package where
  name : String
  version : String
  release : String
  arch : String
  provides : List String
  requires : List String
  files : List String
  sourcerpm : String
deriving DecidableEq, Repr

/-- The dnf query collaborator: the snapshot packages plus the
provide/require filters of the Package Query capability.
`filter(name=..., version=..., release=..., arch="src")` is computed from
`pkgs`; the provide/require matching itself is external to the engine. -/
structure Repo where
  pkgs : List Package
  filterProvides : String → List Package
  filterRequires : String → List Package

/- ### Association-list helpers

Python `dict`s keyed by strings or packages are modelled as association
lists that keep insertion order, mirroring `dict` iteration order. -/

/-- `d[k]` as an `Option` (a `KeyError` is `none`). -/
def alGet {α β : Type} [DecidableEq α] (l : List (α × β)) (k : α) : Option β :=
  match l with
  | [] => none
  | p :: rest => if p.1 = k then some p.2 else alGet rest k

/-- `d[k] = v`: replace the value of an existing key, else append. -/
def alSet {α β : Type} [DecidableEq α] (l : List (α × β)) (k : α) (v : β) :
    List (α × β) :=
  match l with
  | [] => [(k, v)]
  | p :: rest => if p.1 = k then (k, v) :: rest else p :: alSet rest k v

/-- `d.setdefault(k, dflt)` followed by an update `f` of the value at `k`. -/
def alUpdate {α β : Type} [DecidableEq α] (l : List (α × β)) (k : α) (dflt : β)
    (f : β → β) : List (α × β) :=
  match l with
  | [] => [(k, f dflt)]
  | p :: rest =>
    if p.1 = k then (p.1, f p.2) :: rest else p :: alUpdate rest k dflt f

deriving instance DecidableEq for Except

/-- `set.add` on a set modelled as a deduplicated list in insertion order. -/
def setAdd {α : Type} [DecidableEq α] (l : List α) (a : α) : List α :=
  if a ∈ l then l else l ++ [a]

/-- Code-point lexicographic comparison of character lists: Python's string
order (and Lean's `String.le`, restated structurally so that it evaluates by
kernel reduction). -/
def charListLe : List Char → List Char → Bool
  | [], _ => true
  | _ :: _, [] => false
  | a :: as, b :: bs =>
    if a.toNat < b.toNat then true
    else if b.toNat < a.toNat then false
    else charListLe as bs

/-- Python's `s1 <= s2` on strings. -/
def strLe (a b : String) : Bool :=
  charListLe a.toList b.toList

/-- `sorted` on strings (Python's stable sort; on a total order the result
is the unique sorted permutation, so insertion sort is a faithful model). -/
def sortStrings (l : List String) : List String :=
  List.insertionSort (fun a b => strLe a b = true) l


/- ### Path and string helpers used by `find_dependent_packages`

`str.split` and friends are re-implemented structurally over the character
list of the string, so that every definition evaluates by kernel
reduction. -/

/-- Split a character list at every character satisfying `p`, keeping empty
components (the semantics of Python's `str.split(sep)`). -/
def charSplit (p : Char → Bool) : List Char → List (List Char)
  | [] => [[]]
  | c :: rest =>
    let r := charSplit p rest
    if p c then [] :: r
    else
      match r with
      | [] => [[c]]
      | comp :: comps => (c :: comp) :: comps

/-- Join components with a separator character
(`sep.join` / `str.rsplit` reassembly). -/
def charJoin (sep : Char) : List (List Char) → List Char
  | [] => []
  | [comp] => comp
  | comp :: comps => comp ++ sep :: charJoin sep comps

/-- `os.path.normpath` for POSIX paths (CPython's algorithm): collapse
repeated separators (keeping the special leading `//`), drop `.` components
and resolve `..` components. -/
def normpath (path : String) : String :=
  let chars := path.toList
  if chars = [] then "." else
  let leading := (chars.takeWhile (fun c => c = '/')).length
  let initialSlashes : Nat :=
    if leading = 0 then 0 else if leading = 2 then 2 else 1
  let comps := (charSplit (fun c => c = '/') chars).filter
    (fun c => c ≠ [] ∧ c ≠ ['.'])
  let newComps := comps.foldl
    (fun acc comp =>
      if comp ≠ ['.', '.'] ∨ (initialSlashes = 0 ∧ acc = []) ∨
          acc.getLast? = some ['.', '.'] then
        acc ++ [comp]
      else
        acc.dropLast)
    []
  let res := List.replicate initialSlashes '/' ++ charJoin '/' newComps
  if res = [] then "." else String.mk res

/-- `prov.split()` and taking the first component:
`"foo = 1.fc20" -> "foo"`.  Python's `split()` splits on runs of whitespace
and drops empty components; a dnf provide string is never empty, so the
`ValueError` of unpacking an empty split is not modelled. -/
def baseOf (prov : String) : String :=
  String.mk
    (((charSplit Char.isWhitespace prov.toList).filter
      (fun s => s ≠ [])).headD [])

/-- The glob-wildcard workaround of `find_dependent_packages`:
for a file-path provide, `[` and `]` are replaced by `?`
(`str.replace` with single-character patterns is a character map). -/
def globFix (base : String) : String :=
  if base.toList.headD ' ' = '/' then
    String.mk (base.toList.map
      (fun c => if c = '[' ∨ c = ']' then '?' else c))
  else base

/- ### Source package resolution (`srpm_nvr_object`, `srpm`,
`__create_mapping`)

The module-level `srpm_nvr_object` (both in `find_unblocked_orphans.py` and
`deep_checker.py`) calls `sys.exit(1)` when the exact-match query is empty;
the exit is modelled as `Except.error`.  (The `@staticmethod`
`DepChecker.srpm_nvr_object` of `find_unblocked_orphans.py` is dead code:
the bare name `srpm_nvr_object` inside the method `srpm` resolves to the
module-level function, since Python class attributes are not in scope in
method bodies.) -/

/-- The exact-match predicate of
`query.filter(name=..., version=..., release=..., arch='src')`. -/
def srcMatch (name version release : String) (p : Package) : Bool :=
  decide (p.name = name ∧ p.version = version ∧ p.release = release ∧
    p.arch = "src")

/-- `query.filter(name=..., version=..., release=..., arch="src").run()[0]`,
with `sys.exit(1)` on `IndexError` modelled as an error result. -/
def srpm_nvr_object (query : List Package) (name version release : String) :
    Except String Package :=
  match query.filter (srcMatch name version release) with
  | [] => Except.error
      (String.intercalate "-" [name, version, release] ++ ": no source rpm")
  | p :: _ => Except.ok p

/-- The part of a character list before the first occurrence of `sep`
(the whole list when `sep` does not occur): `s.split(sep)[0]` for a
non-empty separator. -/
def beforeSep (sep : List Char) : List Char → List Char
  | [] => []
  | c :: rest =>
    if sep.isPrefixOf (c :: rest) then [] else c :: beforeSep sep rest

/-- `srpm, *_ = package.sourcerpm.split('.src.rpm')` followed by
`sname, sver, srel = srpm.rsplit('-', 2)` (the last two dash-separated
components are split off, the rest is rejoined); `none` models the
`ValueError` when the string has fewer than two dashes. -/
def parseSourcerpm (sourcerpm : String) : Option (String × String × String) :=
  let srpm := beforeSep ".src.rpm".toList sourcerpm.toList
  let parts := charSplit (fun c => c = '-') srpm
  if h : 3 ≤ parts.length then
    some (String.mk (charJoin '-' (parts.take (parts.length - 2))),
      String.mk (parts.get ⟨parts.length - 2, by omega⟩),
      String.mk (parts.get ⟨parts.length - 1, by omega⟩))
  else none

/-- `DepChecker.srpm`: resolve a binary package's declared source reference.
An unparsable `sourcerpm` is the uncaught `ValueError` of `rsplit`. -/
def srpm (repo : Repo) (package : Package) : Except String Package :=
  match parseSourcerpm package.sourcerpm with
  | none => Except.error ("ValueError: " ++ package.sourcerpm)
  | some (n, v, r) => srpm_nvr_object repo.pkgs n v r

/-- The two memoized index mappings of `DepChecker`:
`by_bin : BinaryPackage → source Package` and
`by_src : SourcePackageName → list of BinaryPackage`. -/
structure Checker where
  filterProvides : String → List Package
  filterRequires : String → List Package
  byBin : List (Package × Package)
  bySrc : List (String × List Package)

/-- One step of `DepChecker.__create_mapping`: skip `src` packages,
resolve the source of every binary (fatal on failure), and extend the two
mappings. -/
def create_mapping_step (repo : Repo)
    (acc : List (Package × Package) × List (String × List Package))
    (rpm_package : Package) :
    Except String (List (Package × Package) × List (String × List Package)) :=
  if rpm_package.arch = "src" then Except.ok acc
  else
    match srpm repo rpm_package with
    | Except.error e => Except.error e
    | Except.ok s =>
      Except.ok (acc.1 ++ [(rpm_package, s)],
        alUpdate acc.2 s.name [] (fun l => l ++ [rpm_package]))

/-- `DepChecker.__create_mapping`, folded over the whole snapshot. -/
def create_mapping (repo : Repo) :
    Except String (List (Package × Package) × List (String × List Package)) :=
  repo.pkgs.foldlM (create_mapping_step repo) ([], [])

/-- Construction of a `DepChecker` whose lazy index has been forced
(the first access to `by_src`/`by_bin` triggers `__create_mapping`). -/
def mkChecker (repo : Repo) : Except String Checker :=
  match create_mapping repo with
  | Except.error e => Except.error e
  | Except.ok m =>
    Except.ok
      { filterProvides := repo.filterProvides
        filterRequires := repo.filterRequires
        byBin := m.1
        bySrc := m.2 }

/-- `self.by_src[srpmname]` inside `elide`; its caller only reaches it when
the same lookup already succeeded in `find_dependent_packages`, so the
`KeyError` case is unreachable and modelled as `[]`. -/
def bySrcGet (ck : Checker) (srpmname : String) : List Package :=
  (alGet ck.bySrc srpmname).getD []

/-- `self.by_bin[pkg].name` inside `allow_check`; every package returned by
the require filter is indexed for a well-formed snapshot, so the `KeyError`
case is unreachable and modelled by returning the binary's own name. -/
def byBinName (ck : Checker) (pkg : Package) : String :=
  match alGet ck.byBin pkg with
  | some s => s.name
  | none => pkg.name

/- ### The provide/require elision step -/

/-- The for-else provider scan shared by `elide` (`find_unblocked_orphans.py`)
and `method_name23` (`deep_checker.py`): the loop `break`s — and the
requirer-recording `else` block is skipped — exactly when some provider of
`base_provide` is neither named in `ignore` nor one of this source package's
own binaries.  Providers scanned before the breaking one only log a message,
so the outcome is the existence test. -/
def providerSurvives (ck : Checker) (base_provide : String)
    (ignore : List String) (rpms : List Package) : Bool :=
  (ck.filterProvides base_provide).any
    (fun pkg => decide (pkg.name ∉ ignore ∧ pkg ∉ rpms))

/-- The requirer-recording `else` block of the for-else: for every package
requiring `base_provide` that is not built from `srpmname`, add `prov` to its
entry (`setdefault(dependent_pkg, set()).add(prov)`). -/
def recordRequirers (ck : Checker) (base_provide : String)
    (d : List (Package × List String)) (prov : String) (srpmname : String) :
    List (Package × List String) :=
  (ck.filterRequires base_provide).foldl
    (fun d dependent_pkg =>
      if dependent_pkg ∈ bySrcGet ck srpmname then d
      else alUpdate d dependent_pkg [] (fun s => setAdd s prov))
    d

/-- `DepChecker.elide` of `find_unblocked_orphans.py`: the requirers are
collected into a fresh dict `olle = {}` and the argument
`dependent_packages` is never read, so the return value holds only the
entries contributed by this one provide. -/
def elide (ck : Checker) (base_provide : String)
    (dependent_packages : List (Package × List String)) (ignore : List String)
    (prov : String) (rpms : List Package) (srpmname : String) :
    List (Package × List String) :=
  let _ := dependent_packages
  if providerSurvives ck base_provide ignore rpms then []
  else recordRequirers ck base_provide [] prov srpmname

/-- `DepChecker.method_name23` of `deep_checker.py`: the same elision step,
but mutating `dependent_packages` in place (modelled by returning the
updated dict). -/
def method_name23 (ck : Checker) (base_provide : String)
    (dependent_packages : List (Package × List String)) (ignore : List String)
    (prov : String) (rpms : List Package) (srpmname : String) :
    List (Package × List String) :=
  if providerSurvives ck base_provide ignore rpms then dependent_packages
  else recordRequirers ck base_provide dependent_packages prov srpmname

/- ### `find_dependent_packages` -/

/-- The provide collection of `find_dependent_packages`: all provide strings
of all binaries built from the SRPM, plus every declared file path as a
synthesized provide, run through `os.path.normpath('//' + fn)`. -/
def collectProvides (rpms : List Package) : List String :=
  rpms.foldl
    (fun provides pkg =>
      provides ++ pkg.provides ++
        pkg.files.map (fun fn => normpath ("//" ++ fn)))
    []

/-- `self.by_src[srpmname]` with the `KeyError` handler of
`find_dependent_packages`: an absent SRPM is appended to `not_in_repo` and
treated as having no binaries. -/
def lookupRpms (ck : Checker) (srpmname : String) (not_in_repo : List String) :
    List Package × List String :=
  match alGet ck.bySrc srpmname with
  | some rpms => (rpms, not_in_repo)
  | none => ([], not_in_repo ++ [srpmname])

/-- `OrderedDict(sorted(dependent_packages.items()))`: dnf packages sort by
their identity; name order is a faithful model for the snapshots used here
(membership-level claims do not depend on the tie-breaking). -/
def sortDependents (d : List (Package × List String)) :
    List (Package × List String) :=
  List.insertionSort (fun a b => strLe a.1.name b.1.name = true) d

/-- `DepChecker.find_dependent_packages` of `find_unblocked_orphans.py`:
the per-provide loop body is `dependent_packages = self.elide(...)`, an
overwrite of the accumulator.  Returns the sorted result and the updated
`not_in_repo`. -/
def find_dependent_packages_fuo (ck : Checker) (srpmname : String)
    (ignore : List String) (not_in_repo : List String) :
    List (Package × List String) × List String :=
  let r := lookupRpms ck srpmname not_in_repo
  let rpms := r.1
  let d := (collectProvides rpms).foldl
    (fun dependent_packages prov =>
      elide ck (globFix (baseOf prov)) dependent_packages ignore prov rpms
        srpmname)
    []
  (sortDependents d, r.2)

/-- `DepChecker.find_dependent_packages` of `deep_checker.py`: identical
except that the per-provide step is the in-place
`self.method_name23(...)`. -/
def find_dependent_packages (ck : Checker) (srpmname : String)
    (ignore : List String) (not_in_repo : List String) :
    List (Package × List String) × List String :=
  let r := lookupRpms ck srpmname not_in_repo
  let rpms := r.1
  let d := (collectProvides rpms).foldl
    (fun dependent_packages prov =>
      method_name23 ck (globFix (baseOf prov)) dependent_packages ignore prov
        rpms srpmname)
    []
  (sortDependents d, r.2)

/- ### The bounded breadth-first closure walk

`build_dep_map` / `allow_check` / `recursive_deps` are line-identical between
`find_unblocked_orphans.py` and `deep_checker.py`; the walker below uses the
`deep_checker.py` resolver (`find_dependent_packages`), the implementation
driven by `main.py`.

The checker attributes mutated by the walk (`dep_chain`, `not_in_repo`, the
pagure queue) and the per-call structures (`dep_map`, `incomplete`) together
with the shared `ignore` list form one explicit state record.  `ignore` is
state rather than a per-root local because `ignore = rpm_pkg_names` in
`build_dep_map` binds the *same* list object on every root, and
`ignore.extend(new_names)` in `allow_check` mutates it in place. -/

/-- `dep_map[name]`: dependent source name → dependent binary → set of
broken provides. -/
abbrev RootMap := List (String × List (Package × List String))

instance : DecidableEq RootMap :=
  inferInstanceAs (DecidableEq (List (String × List (Package × List String))))

/-- The mutable state threaded through `build_dep_map`. -/
structure GSt where
  depMap : List (String × RootMap)
  depChain : List (String × List String)
  ignore : List String
  notInRepo : List String
  incomplete : List String
  queueAcc : List String
deriving DecidableEq, Repr

/-- `dep_map[name].setdefault(srpm_name, OrderedDict()).setdefault(pkg,
set()).add(dep)`. -/
def rootMapAdd (rm : RootMap) (srpm_name : String) (pkg : Package)
    (dep : String) : RootMap :=
  alUpdate rm srpm_name [] (fun inner => alUpdate inner pkg [] (fun s => setAdd s dep))

/-- The first loop of `allow_check`: compute `new_names` (deduplicated
against `to_check`, itself and `seen`), the set `new_srpm_names`, and merge
every `(symbol → requirer)` edge into `dep_map[name]`. -/
def allow_check_scan (ck : Checker)
    (dependent_packages : List (Package × List String))
    (seen to_check : List String) (rm : RootMap) :
    List String × List String × RootMap :=
  dependent_packages.foldl
    (fun acc pd =>
      let new_names := acc.1
      let new_srpm_names := acc.2.1
      let rm := acc.2.2
      let pkg := pd.1
      let srpm_name := if pkg.arch ≠ "src" then byBinName ck pkg else pkg.name
      let new_names :=
        if srpm_name ∉ to_check ∧ srpm_name ∉ new_names ∧ srpm_name ∉ seen
        then new_names ++ [srpm_name] else new_names
      let new_srpm_names := setAdd new_srpm_names srpm_name
      let rm := pd.2.foldl (fun rm dep => rootMapAdd rm srpm_name pkg dep) rm
      (new_names, new_srpm_names, rm))
    ([], [], rm)

/-- The distinct-dependent count `len(set(found_deps) | set(to_check))`. -/
def dcount (l : List String) : Nat :=
  l.toFinset.card

/-- `dep_map[name]` of a state (`{}` before the root is initialized). -/
def rootMapOf (g : GSt) (name : String) : RootMap :=
  (alGet g.depMap name).getD []

/-- The keys of `dep_map[name]` (`found_deps`). -/
def rootKeys (g : GSt) (name : String) : List String :=
  (rootMapOf g name).map Prod.fst

/-- `DepChecker.allow_check`: merge one batch of dependents into
`dep_map[name]`, record the reverse chain, feed the pagure queue, extend the
shared `ignore`, and — only while `allow_more` — grow `to_check` and apply
the `max_deps` budget, truncating `to_check` and marking `name` incomplete
when the distinct-dependent count exceeds the budget.  Returns the updated
state, `allow_more` and `to_check`. -/
def allow_check (ck : Checker) (allow_more : Bool) (check_next : String)
    (g : GSt) (dependent_packages : List (Package × List String))
    (max_deps : Int) (name : String) (seen to_check : List String) :
    GSt × Bool × List String :=
  let scan := allow_check_scan ck dependent_packages seen to_check
    (rootMapOf g name)
  let new_names := scan.1
  let new_srpm_names := scan.2.1
  let rm := scan.2.2
  let depChain := new_srpm_names.foldl
    (fun dc n => alUpdate dc n [] (fun s => setAdd s check_next)) g.depChain
  let g := { g with
    depMap := alSet g.depMap name rm
    depChain := depChain
    queueAcc := g.queueAcc ++ new_srpm_names
    ignore := g.ignore ++ new_names }
  if allow_more then
    let to_check := to_check ++ new_names
    let found_deps := rm.map Prod.fst
    let dep_count := dcount (found_deps ++ to_check)
    if (dep_count : Int) > max_deps then
      let todo_deps := (max_deps - (found_deps.length : Int)).toNat
      ({ g with incomplete := g.incomplete ++ [name] }, false,
        to_check.take todo_deps)
    else
      (g, true, to_check)
  else
    (g, false, to_check)

/-- One iteration of the `while True` loop of `build_dep_map`:
`check_next = to_check.pop(0)` has already been split off as `check_next` /
`rest`; append `check_next` to `seen`, call the resolver with the current
`ignore` and, when dependents were found, run `allow_check`. -/
def walk_step (ck : Checker) (max_deps : Int) (name : String) (g : GSt)
    (check_next : String) (rest seen : List String) (allow_more : Bool) :
    GSt × Bool × List String :=
  let fd := find_dependent_packages ck check_next g.ignore g.notInRepo
  let g := { g with notInRepo := fd.2 }
  if fd.1 ≠ [] then
    allow_check ck allow_more check_next g fd.1 max_deps name
      (seen ++ [check_next]) rest
  else (g, allow_more, rest)

/-- The `while True` loop of `build_dep_map` for one root `name`, with
explicit fuel.  `none` on empty `to_check` models the `IndexError` of
`to_check.pop(0)`, unreachable from `walk_root`; `none` on exhausted fuel
models a loop that has not yet terminated. -/
def walk_loop (ck : Checker) (max_deps : Int) (name : String) :
    Nat → GSt → List String → List String → Bool → Option (GSt × Bool)
  | 0, _, _, _, _ => none
  | _ + 1, _, [], _, _ => none
  | fuel + 1, g, check_next :: rest, seen, allow_more =>
    let next := walk_step ck max_deps name g check_next rest seen allow_more
    if next.2.2 = [] then some (next.1, next.2.1)
    else walk_loop ck max_deps name fuel next.1 next.2.2 (seen ++ [check_next])
      next.2.1

/-- One iteration of the outer `for name in sorted(packages)` loop of
`build_dep_map`: initialize `dep_chain[name]`, `dep_map[name]` and the
per-root locals, then run the walk.  The final `allow_more` is returned for
the truncation diagnostics. -/
def walk_root (ck : Checker) (max_deps : Int) (fuel : Nat) (g : GSt)
    (name : String) : Option (GSt × Bool) :=
  let g := { g with
    depChain := alSet g.depChain name []
    depMap := alSet g.depMap name [] }
  walk_loop ck max_deps name fuel g [name] [] true

/-- The outer loop of `build_dep_map` over the sorted roots. -/
def build_dep_map_go (ck : Checker) (max_deps : Int) (fuel : Nat) :
    List String → GSt → Option GSt
  | [], g => some g
  | name :: rest, g =>
    match walk_root ck max_deps fuel g name with
    | none => none
    | some r => build_dep_map_go ck max_deps fuel rest r.1

/-- The state at entry of `build_dep_map`: fresh per-call structures and the
shared `ignore` list bound to `rpm_pkg_names`. -/
def initGSt (rpm_pkg_names : List String) : GSt :=
  { depMap := []
    depChain := []
    ignore := rpm_pkg_names
    notInRepo := []
    incomplete := []
    queueAcc := [] }

/-- `DepChecker.build_dep_map`. -/
def build_dep_map (ck : Checker) (max_deps : Int) (packages : List String)
    (rpm_pkg_names : List String) (fuel : Nat) : Option GSt :=
  build_dep_map_go ck max_deps fuel (sortStrings packages)
    (initGSt rpm_pkg_names)

/-- The `rpm_pkg_names` collection of `recursive_deps`: the binary package
names of all requested roots (`by_src.get(name, [])`, so an absent root
contributes nothing). -/
def rpm_pkg_names (ck : Checker) (packages : List String) : List String :=
  packages.foldl
    (fun acc name => acc ++ ((alGet ck.bySrc name).getD []).map Package.name)
    []

/-- `DepChecker.recursive_deps`: force the lazy index (fatal on a source
resolution failure), collect `rpm_pkg_names` and run `build_dep_map`.
The enrichment pipeline itself is modelled separately (`worker_*` below);
its queue feed is the `queueAcc` trace of the state. -/
def recursive_deps (repo : Repo) (packages : List String) (max_deps : Int)
    (fuel : Nat) : Except String (Option GSt) :=
  match mkChecker repo with
  | Except.error e => Except.error e
  | Except.ok ck =>
    Except.ok (build_dep_map ck max_deps packages (rpm_pkg_names ck packages)
      fuel)

/- ### Metadata fetch (`PagureInfo`) -/

/-- The registry payload the engine reads: the `access_users` /
`access_groups` groups of person lists, and the status-change timestamps
(epoch values; `date_modified` may be absent, see pagure issue 2412). -/
structure PkgInfo where
  accessUsers : List (String × List String)
  accessGroups : List (String × List String)
  dateModified : Option Int
  dateCreated : Int
deriving DecidableEq, Repr

/-- The possible outcomes of the `requests.get` + `raise_for_status` +
`.json()` sequence in `PagureInfo.__init__`. -/
inductive FetchOutcome where
  /-- 2xx response with a parseable body and no `error` member. -/
  | ok (info : PkgInfo)
  /-- `raise_for_status()` raised `requests.exceptions.HTTPError`. -/
  | httpError
  /-- parseable body containing an `error` member (the project-not-found
  case); `__init__` raises `ValueError` after assigning `pkginfo`. -/
  | errorBody (msg : String)
  /-- anything else raised (connection error, malformed body, ...). -/
  | malformed
deriving DecidableEq

/-- `PagureInfo.__init__` of `find_unblocked_orphans.py`, where `HTTPError`
is `requests.HTTPError`: that handler only logs and leaves the `pkginfo`
attribute unassigned (outer `none`); the `except Exception` handler stores
the `None` sentinel (inner `none`). -/
def pagureInit_fuo : FetchOutcome → Option (Option PkgInfo)
  | FetchOutcome.ok info => some (some info)
  | FetchOutcome.httpError => none
  | FetchOutcome.errorBody _ => some none
  | FetchOutcome.malformed => some none

/-- `PagureInfo.__init__` of `pagure_info.py`, where `HTTPError` is
`urllib.error.HTTPError`: `requests` raises its own `HTTPError` class, which
is not a subclass of urllib's, so every failure reaches the
`except Exception` handler and stores the `None` sentinel. -/
def pagureInit_pi : FetchOutcome → Option PkgInfo
  | FetchOutcome.ok info => some info
  | _ => none

/-- `PagureInfo.get_people` on an object whose `pkginfo` attribute holds
`info`: the sorted set of all persons across both access groups. -/
def get_people_val (info : Option PkgInfo) : List String :=
  match info with
  | none => []
  | some i =>
    sortStrings
      (((i.accessUsers.map Prod.snd ++ i.accessGroups.map Prod.snd).flatten).dedup)

/-- `PagureInfo.get_people` on the `find_unblocked_orphans.py` object:
when `__init__` never assigned `pkginfo`, the attribute access
`self.pkginfo` raises `AttributeError`. -/
def get_people_fuo (st : Option (Option PkgInfo)) : Except String (List String) :=
  match st with
  | none => Except.error "AttributeError"
  | some info => Except.ok (get_people_val info)

/-- `PagureInfo.status_change` on an object whose `pkginfo` attribute holds
`info`: `datetime.now` for the `None` sentinel, else `date_modified`
falling back to `date_created`. -/
def status_change_val (now : Int) (info : Option PkgInfo) : Int :=
  match info with
  | none => now
  | some i =>
    match i.dateModified with
    | some d => d
    | none => i.dateCreated

/-- `PagureInfo.status_change` on the `find_unblocked_orphans.py` object
(`AttributeError` when `pkginfo` was never assigned). -/
def status_change_fuo (now : Int) (st : Option (Option PkgInfo)) :
    Except String Int :=
  match st with
  | none => Except.error "AttributeError"
  | some info => Except.ok (status_change_val now info)

/- ### The enrichment pipeline (`pagure_worker`)

`recursive_deps` starts two daemon threads running `pagure_worker`; each
iteration is `get` / membership check on `pagure_dict` / `PagureInfo` fetch /
dict store / `task_done`.  Under CPython each of those operations is atomic,
but the check and the store are separate steps, so the interleavings of the
two workers are modelled by a small-step machine with a per-worker program
counter. -/

/-- Program counter of one `pagure_worker` thread, between the atomic
operations of its loop body. -/
inductive WPc where
  /-- about to `self.pagureinfo_queue.get()` -/
  | idle
  /-- holding `package`, about to test `package not in self.pagure_dict` -/
  | check (package : String)
  /-- about to perform the external fetch `PagureInfo(package, ...)` -/
  | fetch (package : String)
  /-- fetched, about to `self.pagure_dict[package] = pkginfo` -/
  | store (package : String)
deriving DecidableEq, Repr

/-- Shared state of the enrichment pipeline: the queue, the names present in
`pagure_dict`, the log of external fetches performed, and the two workers. -/
structure WSt where
  queue : List String
  cacheKeys : List String
  fetchLog : List String
  w1 : WPc
  w2 : WPc
deriving DecidableEq, Repr

/-- One atomic step of a single worker; a worker at `idle` with an empty
queue blocks (the state is unchanged). -/
def worker_step (pc : WPc) (queue cacheKeys fetchLog : List String) :
    WPc × List String × List String × List String :=
  match pc with
  | WPc.idle =>
    match queue with
    | [] => (WPc.idle, queue, cacheKeys, fetchLog)
    | package :: rest => (WPc.check package, rest, cacheKeys, fetchLog)
  | WPc.check package =>
    if package ∈ cacheKeys then (WPc.idle, queue, cacheKeys, fetchLog)
    else (WPc.fetch package, queue, cacheKeys, fetchLog)
  | WPc.fetch package =>
    (WPc.store package, queue, cacheKeys, fetchLog ++ [package])
  | WPc.store package =>
    (WPc.idle, queue, setAdd cacheKeys package, fetchLog)

/-- Run one step of worker 1 (`true`) or worker 2 (`false`). -/
def pipeline_step (s : WSt) (who : Bool) : WSt :=
  if who then
    let r := worker_step s.w1 s.queue s.cacheKeys s.fetchLog
    { s with w1 := r.1, queue := r.2.1, cacheKeys := r.2.2.1, fetchLog := r.2.2.2 }
  else
    let r := worker_step s.w2 s.queue s.cacheKeys s.fetchLog
    { s with w2 := r.1, queue := r.2.1, cacheKeys := r.2.2.1, fetchLog := r.2.2.2 }

/-- Run the pipeline under an explicit interleaving schedule. -/
def pipeline_run (sched : List Bool) (s : WSt) : WSt :=
  sched.foldl pipeline_step s

/-- The sequential projection of `pagure_worker`: one worker draining the
whole queue, each item fully processed (check, fetch, store) before the next
`get`.  This is the execution in which no second worker can interleave
between the membership check and the store. -/
def worker_drain : List String → List String → List String →
    List String × List String
  | [], cacheKeys, fetchLog => (cacheKeys, fetchLog)
  | package :: rest, cacheKeys, fetchLog =>
    if package ∈ cacheKeys then worker_drain rest cacheKeys fetchLog
    else worker_drain rest (cacheKeys ++ [package]) (fetchLog ++ [package])

/- ### JSON persistence (`save_to_json`) -/

/-- The machine-readable object written by `save_to_json` (identical in
`main.py` and `find_unblocked_orphans.py`): `status_change` over the orphans
present in `pagure_dict`, and `affected_packages` over `dep_chain` with
sorted reason lists.  `pagure_dict` holds the `pkginfo` attribute of each
enriched name; `isoformat` is modelled by rendering the epoch value. -/
structure JsonData where
  status_change : List (String × String)
  affected_packages : List (String × List String)
deriving DecidableEq, Repr

/-- The two dict comprehensions of `save_to_json`. -/
def save_to_json_data (now : Int) (orphans : List String)
    (pagure_dict : List (String × Option PkgInfo))
    (dep_chain : List (String × List String)) : JsonData :=
  { status_change :=
      (orphans.filter (fun pkg => (alGet pagure_dict pkg).isSome)).map
        (fun pkg =>
          (pkg, toString (status_change_val now ((alGet pagure_dict pkg).getD none))))
    affected_packages :=
      dep_chain.map (fun pr => (pr.1, sortStrings pr.2)) }

/-- `save_to_json` around the `open`/`json.dump` call: a failing write
(`OSError`) is caught and logged, so the function returns normally either
way; the data handed to `json.dump` does not depend on the write outcome. -/
def save_to_json (writeOk : Bool) (now : Int) (orphans : List String)
    (pagure_dict : List (String × Option PkgInfo))
    (dep_chain : List (String × List String)) : Bool × JsonData :=
  (writeOk, save_to_json_data now orphans pagure_dict dep_chain)

/- ### Concrete repository snapshots used as test inputs -/

/-- A package with version/release 1-1 and no files, enough for the
scenarios below. -/
def mkPkg (name arch : String) (provides requires : List String) : Package :=
  { name := name, version := "1", release := "1", arch := arch,
    provides := provides, requires := requires, files := [],
    sourcerpm := name ++ "-1-1.src.rpm" }

/-- SRPM `s` builds `binS`, which provides the two exclusive symbols `a`
and `b`; `reqA`/`reqB` (from other SRPMs) require one each. -/
def binS : Package := mkPkg "binS" "x86_64" ["a", "b"] []

def reqA : Package := mkPkg "reqA" "x86_64" [] ["a"]

def reqB : Package := mkPkg "reqB" "x86_64" [] ["b"]

def srcS : Package := mkPkg "s" "src" [] []

def srcRA : Package := mkPkg "ras" "src" [] []

def srcRB : Package := mkPkg "rbs" "src" [] []

/-- Index and query filters for the two-exclusive-symbols scenario. -/
def ckC1 : Checker :=
  { filterProvides := fun s => if s = "a" ∨ s = "b" then [binS] else []
    filterRequires := fun s =>
      if s = "a" then [reqA] else if s = "b" then [reqB] else []
    byBin := [(binS, srcS), (reqA, srcRA), (reqB, srcRB)]
    bySrc := [("s", [binS]), ("ras", [reqA]), ("rbs", [reqB])] }

/-- An alternate provider of `a` that is not built from `s` and not ignored:
with it, symbol `a` is not exclusive to `s`. -/
def binOther : Package := mkPkg "binOther" "x86_64" ["a"] []

/-- Like `ckC1` but `a` is also provided by the surviving `binOther`. -/
def ckC5 : Checker :=
  { filterProvides := fun s =>
      if s = "a" then [binS, binOther] else if s = "b" then [binS] else []
    filterRequires := fun s =>
      if s = "a" then [reqA] else if s = "b" then [reqB] else []
    byBin := [(binS, srcS), (reqA, srcRA), (reqB, srcRB)]
    bySrc := [("s", [binS]), ("ras", [reqA]), ("rbs", [reqB])] }

/-- Root `r` builds `binR`, whose single exclusive symbol `p` is required by
binaries of two distinct SRPMs `s1`, `s2`: one resolver batch contributes
two distinct dependent source keys at once. -/
def binR : Package := mkPkg "binR" "x86_64" ["p"] []

def rb1 : Package := mkPkg "rb1" "x86_64" [] ["p"]

def rb2 : Package := mkPkg "rb2" "x86_64" [] ["p"]

def srcR : Package := mkPkg "r" "src" [] []

def srcS1 : Package := mkPkg "s1" "src" [] []

def srcS2 : Package := mkPkg "s2" "src" [] []

/-- Index and query filters for the budget-truncation scenario. -/
def ckB : Checker :=
  { filterProvides := fun s => if s = "p" then [binR] else []
    filterRequires := fun s => if s = "p" then [rb1, rb2] else []
    byBin := [(binR, srcR), (rb1, srcS1), (rb2, srcS2)]
    bySrc := [("r", [binR]), ("s1", [rb1]), ("s2", [rb2])] }

/-- Two roots `a` and `b`: root `a`'s walk discovers the third SRPM `c`
(via `depB`, the requirer of `a`'s exclusive symbol `pa`). -/
def binA : Package := mkPkg "binA" "x86_64" ["pa"] []

def binBb : Package := mkPkg "binBb" "x86_64" [] []

def depB : Package := mkPkg "depB" "x86_64" [] ["pa"]

def srcA : Package := mkPkg "a" "src" [] []

def srcB : Package := mkPkg "b" "src" [] []

def srcC : Package := mkPkg "c" "src" [] []

/-- Index and query filters for the shared-ignore scenario. -/
def ckA : Checker :=
  { filterProvides := fun s => if s = "pa" then [binA] else []
    filterRequires := fun s => if s = "pa" then [depB] else []
    byBin := [(binA, srcA), (binBb, srcB), (depB, srcC)]
    bySrc := [("a", [binA]), ("b", [binBb]), ("c", [depB])] }

/-- A snapshot containing the binary `binX` whose declared source
`binX-1-1.src.rpm` has no matching source package. -/
def binX : Package := mkPkg "binX" "x86_64" [] []

/-- The malformed snapshot for the source-resolution scenario. -/
def repoC2 : Repo :=
  { pkgs := [binX], filterProvides := fun _ => [], filterRequires := fun _ => [] }

/-- A well-formed one-package snapshot (binary plus its source). -/
def repoW : Repo :=
  { pkgs := [mkPkg "binW" "x86_64" [] [], mkPkg "binW" "src" [] []]
    filterProvides := fun _ => []
    filterRequires := fun _ => [] }

/-- Enrichment pipeline start state: the same name enqueued twice, both
workers idle, nothing cached or fetched yet. -/
def wSt0 : WSt :=
  { queue := ["foo", "foo"], cacheKeys := [], fetchLog := [], w1 := WPc.idle,
    w2 := WPc.idle }

/-- The racing schedule: both workers dequeue one copy of the name and both
pass the `not in pagure_dict` test before either has stored its result. -/
def raceSched : List Bool :=
  [true, false, true, false, true, false, true, false]

/-- Registry metadata used in the persistence scenario. -/
def infoA : PkgInfo :=
  { accessUsers := [("admin", ["alice"])], accessGroups := [],
    dateModified := some 100, dateCreated := 50 }

/-- An enrichment cache holding the orphan `a` and the discovered dependent
`b`, both with metadata. -/
def pdC9 : List (String × Option PkgInfo) :=
  [("a", some infoA), ("b", some infoA)]

/-- A reverse chain recording that `x` was discovered because of `b` and
`a`. -/
def dcC9 : List (String × List String) :=
  [("x", ["b", "a"])]


/-- The state produced by root `r`'s walk in the budget scenario
(`walk_root ckB 1 10 (initGSt ["binR"]) "r"`). -/
def gC3r : GSt :=
  { depMap := [("r", [("s1", [(rb1, ["p"])]), ("s2", [(rb2, ["p"])])])]
    depChain := [("r", []), ("s1", ["r"]), ("s2", ["r"])]
    ignore := ["binR", "s1", "s2"]
    notInRepo := []
    incomplete := ["r"]
    queueAcc := ["s1", "s2"] }

/-- The state produced by root `a`'s walk in the shared-ignore scenario
(`walk_root ckA 20 10 (initGSt ["binA", "binBb"]) "a"`). -/
def gC4 : GSt :=
  { depMap := [("a", [("c", [(depB, ["pa"])])])]
    depChain := [("a", []), ("c", ["a"])]
    ignore := ["binA", "binBb", "c"]
    notInRepo := []
    incomplete := []
    queueAcc := ["c"] }

/-- The walk result of the well-formed one-package snapshot
(`recursive_deps repoW ["binW"] 20 10`). -/
def gW : GSt :=
  { depMap := [("binW", [])]
    depChain := [("binW", [])]
    ignore := ["binW"]
    notInRepo := []
    incomplete := []
    queueAcc := [] }

/- ### Theorems -/

/- Order facts about the structural string comparison, needed for the
sortedness arguments below. -/

theorem charListLe_total : ∀ as bs, charListLe as bs = true ∨
    charListLe bs as = true := by
  intro as
  induction as with
  | nil => intro bs; left; rfl
  | cons a as ih =>
    intro bs
    cases bs with
    | nil => right; rfl
    | cons b bs =>
      simp only [charListLe]
      rcases Nat.lt_trichotomy a.toNat b.toNat with h | h | h
      · left; simp [h]
      · have h1 : ¬ a.toNat < b.toNat := by omega
        have h2 : ¬ b.toNat < a.toNat := by omega
        rcases ih bs with h3 | h3
        · left; simp [h1, h2, h3]
        · right; simp [h1, h2, h3]
      · right; simp [h]

theorem charListLe_trans : ∀ as bs cs, charListLe as bs = true →
    charListLe bs cs = true → charListLe as cs = true := by
  intro as
  induction as with
  | nil => intro bs cs _ _; rfl
  | cons a as ih =>
    intro bs cs h1 h2
    cases bs with
    | nil => simp [charListLe] at h1
    | cons b bs =>
      cases cs with
      | nil => simp [charListLe] at h2
      | cons c cs =>
        simp only [charListLe] at h1 h2 ⊢
        rcases Nat.lt_trichotomy a.toNat b.toNat with hab | hab | hab <;>
          rcases Nat.lt_trichotomy b.toNat c.toNat with hbc | hbc | hbc
        · simp [show a.toNat < c.toNat by omega]
        · simp [show a.toNat < c.toNat by omega]
        · simp [show ¬ b.toNat < c.toNat by omega,
            show c.toNat < b.toNat by omega] at h2
        · simp [show a.toNat < c.toNat by omega]
        · simp only [show ¬ a.toNat < b.toNat by omega, if_false,
            show ¬ b.toNat < a.toNat by omega,
            show ¬ b.toNat < c.toNat by omega,
            show ¬ c.toNat < b.toNat by omega] at h1 h2
          simp only [show ¬ a.toNat < c.toNat by omega, if_false,
            show ¬ c.toNat < a.toNat by omega]
          exact ih bs cs h1 h2
        · simp [show ¬ b.toNat < c.toNat by omega,
            show c.toNat < b.toNat by omega] at h2
        · simp [show ¬ a.toNat < b.toNat by omega,
            show b.toNat < a.toNat by omega] at h1
        · simp [show ¬ a.toNat < b.toNat by omega,
            show b.toNat < a.toNat by omega] at h1
        · simp [show ¬ a.toNat < b.toNat by omega,
            show b.toNat < a.toNat by omega] at h1

instance : IsTotal String (fun a b => strLe a b = true) :=
  ⟨fun a b => charListLe_total a.toList b.toList⟩

instance : IsTrans String (fun a b => strLe a b = true) :=
  ⟨fun a b c => charListLe_trans a.toList b.toList c.toList⟩

/-- C1: refuted in `find_unblocked_orphans.py` — with source `s` providing
the two exclusive symbols `a` (required by `reqA`) and `b` (required by
`reqB`), `find_dependent_packages` returns only the last symbol's entry,
because each loop iteration overwrites `dependent_packages` with the fresh
dict built by `elide`; the entry recorded for `a` is gone from the final
result.  `deep_checker.py`'s accumulating `method_name23` (and the
function's own docstring) give the mapping the claim describes, with both
symbols covered at once. -/
theorem c1_per_symbol_overwrite_loses_entries :
    (find_dependent_packages_fuo ckC1 "s" [] []).1 = [(reqB, ["b"])] ∧
    (find_dependent_packages ckC1 "s" [] []).1 =
      [(reqA, ["a"]), (reqB, ["b"])] ∧
    providerSurvives ckC1 "a" [] [binS] = false := by
  decide

/-- C6: refuted in `find_unblocked_orphans.py` — on an HTTP error status the
`except HTTPError` handler only logs, leaving the `pkginfo` attribute
unassigned, so `get_people` and `status_change` raise `AttributeError`
instead of returning the empty list / a timestamp.  The `pagure_info.py`
copy (which imports urllib's `HTTPError`, a class `requests` never raises)
reaches the `except Exception` handler instead and yields the usable
sentinel the claim describes. -/
theorem c6_http_error_unusable_record :
    pagureInit_fuo FetchOutcome.httpError = none ∧
    get_people_fuo (pagureInit_fuo FetchOutcome.httpError) =
      Except.error "AttributeError" ∧
    status_change_fuo 0 (pagureInit_fuo FetchOutcome.httpError) =
      Except.error "AttributeError" ∧
    get_people_fuo (pagureInit_fuo FetchOutcome.malformed) = Except.ok [] ∧
    get_people_val (pagureInit_pi FetchOutcome.httpError) = [] ∧
    status_change_val 7 (pagureInit_pi FetchOutcome.httpError) = 7 := by
  decide

/-- C3 counterexample: with `max_deps = 1`, root `r`'s single resolver batch
contributes the two dependent source keys `s1` and `s2` to `dep_map[r]`
before the budget check runs, so after the walk completes the distinct key
count is 2 > 1 (truncation only cuts the pending `to_check` list; it does
not discard already-merged keys). -/
theorem c3_dep_map_exceeds_budget :
    ((walk_root ckB 1 10 (initGSt ["binR"]) "r").map
      (fun p => ((rootKeys p.1 "r").toFinset.card, p.1.incomplete, p.2))) =
      some (2, ["r"], false) ∧ ¬ ((2 : Int) ≤ 1) := by
  decide

/-- C4 counterexample: with roots `a` and `b` (binary names `binA`,
`binBb`), root `a`'s walk discovers the source `c` and extends the shared
`ignore` list in place; root `b`, processed next in sorted order, therefore
starts from `["binA", "binBb", "c"]`, not from the binary names of the
requested roots. -/
theorem c4_second_root_sees_polluted_ignore :
    ((walk_root ckA 20 10 (initGSt ["binA", "binBb"]) "a").map
      (fun p => p.1.ignore)) = some ["binA", "binBb", "c"] ∧
    "c" ∉ (["binA", "binBb"] : List String) ∧
    sortStrings ["a", "b"] = ["a", "b"] := by
  decide

/-- C7 counterexample: the name `foo` is enqueued twice; under the schedule
in which both workers pass the `not in pagure_dict` test before either has
stored its result, the external fetch runs twice for `foo` (the check and
the store of `pagure_worker` are not atomic). -/
theorem c7_concurrent_double_fetch :
    (pipeline_run raceSched wSt0).fetchLog = ["foo", "foo"] ∧
    (pipeline_run raceSched wSt0).queue = [] ∧
    (pipeline_run raceSched wSt0).cacheKeys = ["foo"] := by
  decide

/-- C9 counterexample: the enriched name `b` has metadata but is not in the
`orphans` argument, so the `status_change` member omits it —
`save_to_json` iterates over `orphans`, not over every enriched name. -/
theorem c9_enriched_non_orphan_missing :
    ("b", some infoA) ∈ pdC9 ∧
    (save_to_json_data 0 ["a"] pdC9 dcC9).status_change.map Prod.fst =
      ["a"] := by
  decide

/- Association-list and distinct-count facts. -/

theorem alGet_alSet_self {α β : Type} [DecidableEq α] (l : List (α × β))
    (k : α) (v : β) : alGet (alSet l k v) k = some v := by
  induction l with
  | nil => simp [alSet, alGet]
  | cons p rest ih =>
    by_cases h : p.1 = k
    · simp [alSet, h, alGet]
    · simp [alSet, h, alGet, ih]

theorem dcount_le_of_sub {l1 l2 : List String} (h : l1 ⊆ l2) :
    dcount l1 ≤ dcount l2 := by
  unfold dcount
  apply Finset.card_le_card
  intro x hx
  rw [List.mem_toFinset] at hx ⊢
  exact h hx

theorem dcount_pop (a rest : List String) (c : String) :
    dcount (a ++ rest) ≤ dcount (a ++ c :: rest) := by
  apply dcount_le_of_sub
  intro x hx
  simp only [List.mem_append, List.mem_cons] at hx ⊢
  tauto

theorem dcount_left (a l : List String) : dcount a ≤ dcount (a ++ l) := by
  apply dcount_le_of_sub
  intro x hx
  exact List.mem_append_left _ hx

/-- An absent SRPM yields no dependents and is recorded in `not_in_repo`. -/
theorem find_dependent_packages_absent (ck : Checker) (s : String)
    (ignore nir : List String) (h : alGet ck.bySrc s = none) :
    find_dependent_packages ck s ignore nir = ([], nir ++ [s]) := by
  simp [find_dependent_packages, lookupRpms, h, collectProvides,
    sortDependents, List.insertionSort]

/- Behaviour of one `allow_check` call, split by the budget branch. -/

theorem allow_check_spec (ck : Checker) (am : Bool) (cn : String) (g : GSt)
    (dp : List (Package × List String)) (md : Int) (name : String)
    (seen tc : List String) (g' : GSt) (am' : Bool) (tc' : List String)
    (h : allow_check ck am cn g dp md name seen tc = (g', am', tc')) :
    (am = false ∧ am' = false ∧ g'.incomplete = g.incomplete ∧ tc' = tc) ∨
    (am = true ∧ am' = true ∧ g'.incomplete = g.incomplete ∧
      (dcount (rootKeys g' name ++ tc') : Int) ≤ md) ∨
    (am = true ∧ am' = false ∧ g'.incomplete = g.incomplete ++ [name]) := by
  simp only [allow_check] at h
  cases am with
  | false =>
    simp only [Bool.false_eq_true, if_false] at h
    simp only [Prod.mk.injEq] at h
    obtain ⟨h1, h2, h3⟩ := h
    subst h1
    exact Or.inl ⟨rfl, h2.symm, rfl, h3.symm⟩
  | true =>
    simp only [if_true] at h
    split at h
    case isTrue hgt =>
      simp only [Prod.mk.injEq] at h
      obtain ⟨h1, h2, h3⟩ := h
      subst h1
      exact Or.inr (Or.inr ⟨rfl, h2.symm, rfl⟩)
    case isFalse hle =>
      simp only [Prod.mk.injEq] at h
      obtain ⟨h1, h2, h3⟩ := h
      subst h1
      refine Or.inr (Or.inl ⟨rfl, h2.symm, rfl, ?_⟩)
      subst h3
      simp only [rootKeys, rootMapOf, alGet_alSet_self, Option.getD_some]
      simp only [rootMapOf] at hle
      omega

/- Behaviour of one loop iteration. -/

theorem walk_step_spec (ck : Checker) (md : Int) (name : String) (g : GSt)
    (cn : String) (rest seen : List String) (am : Bool) (g' : GSt)
    (am' : Bool) (tc' : List String)
    (h : walk_step ck md name g cn rest seen am = (g', am', tc')) :
    (am' = am ∧ g'.incomplete = g.incomplete ∧ tc' = rest ∧
      (rootMapOf g' name = rootMapOf g name ∨ am = false)) ∨
    (am = true ∧ am' = true ∧ g'.incomplete = g.incomplete ∧
      (dcount (rootKeys g' name ++ tc') : Int) ≤ md) ∨
    (am = true ∧ am' = false ∧ g'.incomplete = g.incomplete ++ [name]) := by
  simp only [walk_step] at h
  split at h
  case isTrue hne =>
    rcases allow_check_spec _ _ _ _ _ _ _ _ _ _ _ _ h with
      ⟨ha, ha', hinc, htc⟩ | ⟨ha, ha', hinc, hbound⟩ | ⟨ha, ha', hinc⟩
    · exact Or.inl ⟨by rw [ha', ha], hinc, htc, Or.inr ha⟩
    · exact Or.inr (Or.inl ⟨ha, ha', hinc, hbound⟩)
    · exact Or.inr (Or.inr ⟨ha, ha', hinc⟩)
  case isFalse hnil =>
    simp only [Prod.mk.injEq] at h
    obtain ⟨h1, h2, h3⟩ := h
    subst h1
    exact Or.inl ⟨h2.symm, rfl, h3.symm, Or.inl rfl⟩

/- The shared `ignore` list only ever grows, by in-place `extend`. -/

theorem allow_check_ignore (ck : Checker) (am : Bool) (cn : String) (g : GSt)
    (dp : List (Package × List String)) (md : Int) (name : String)
    (seen tc : List String) (g' : GSt) (am' : Bool) (tc' : List String)
    (h : allow_check ck am cn g dp md name seen tc = (g', am', tc')) :
    ∃ ext, g'.ignore = g.ignore ++ ext := by
  simp only [allow_check] at h
  cases am with
  | false =>
    simp only [Bool.false_eq_true, if_false, Prod.mk.injEq] at h
    obtain ⟨h1, _, _⟩ := h
    subst h1
    exact ⟨_, rfl⟩
  | true =>
    simp only [if_true] at h
    split at h <;>
    · simp only [Prod.mk.injEq] at h
      obtain ⟨h1, _, _⟩ := h
      subst h1
      exact ⟨_, rfl⟩

theorem walk_step_ignore (ck : Checker) (md : Int) (name : String) (g : GSt)
    (cn : String) (rest seen : List String) (am : Bool) (g' : GSt)
    (am' : Bool) (tc' : List String)
    (h : walk_step ck md name g cn rest seen am = (g', am', tc')) :
    ∃ ext, g'.ignore = g.ignore ++ ext := by
  simp only [walk_step] at h
  split at h
  case isTrue hne =>
    obtain ⟨ext, hext⟩ := allow_check_ignore _ _ _ _ _ _ _ _ _ _ _ _ h
    exact ⟨ext, hext⟩
  case isFalse hnil =>
    simp only [Prod.mk.injEq] at h
    obtain ⟨h1, _, _⟩ := h
    subst h1
    exact ⟨[], by simp⟩

theorem walk_loop_ignore (ck : Checker) (md : Int) (name : String) :
    ∀ (fuel : Nat) (g : GSt) (tc seen : List String) (am : Bool) (g' : GSt)
      (am' : Bool),
    walk_loop ck md name fuel g tc seen am = some (g', am') →
    ∃ ext, g'.ignore = g.ignore ++ ext := by
  intro fuel
  induction fuel with
  | zero => intro g tc seen am g' am' h; simp [walk_loop] at h
  | succ n ih =>
    intro g tc seen am g' am' h
    cases tc with
    | nil => simp [walk_loop] at h
    | cons cn rest =>
      simp only [walk_loop] at h
      rcases hstep : walk_step ck md name g cn rest seen am with ⟨g1, am1, tc1⟩
      simp only [hstep] at h
      obtain ⟨e1, he1⟩ := walk_step_ignore _ _ _ _ _ _ _ _ _ _ _ hstep
      split at h
      · simp only [Option.some.injEq, Prod.mk.injEq] at h
        obtain ⟨h1, _⟩ := h
        subst h1
        exact ⟨e1, he1⟩
      · obtain ⟨e2, he2⟩ := ih g1 tc1 (seen ++ [cn]) am1 g' am' h
        exact ⟨e1 ++ e2, by rw [he2, he1, List.append_assoc]⟩

/- Truncation marks the root incomplete exactly when `allow_more` flips. -/

theorem walk_loop_inc_am (ck : Checker) (md : Int) (name : String) :
    ∀ (fuel : Nat) (g : GSt) (tc seen : List String) (am : Bool) (g' : GSt)
      (am' : Bool),
    walk_loop ck md name fuel g tc seen am = some (g', am') →
    (am' = true → am = true ∧ g'.incomplete = g.incomplete) ∧
    (am' = false → (am = false ∧ g'.incomplete = g.incomplete) ∨
      (am = true ∧ g'.incomplete = g.incomplete ++ [name])) := by
  intro fuel
  induction fuel with
  | zero => intro g tc seen am g' am' h; simp [walk_loop] at h
  | succ n ih =>
    intro g tc seen am g' am' h
    cases tc with
    | nil => simp [walk_loop] at h
    | cons cn rest =>
      simp only [walk_loop] at h
      rcases hstep : walk_step ck md name g cn rest seen am with ⟨g1, am1, tc1⟩
      simp only [hstep] at h
      split at h
      · simp only [Option.some.injEq, Prod.mk.injEq] at h
        obtain ⟨h1, h2⟩ := h
        subst h1
        subst h2
        rcases walk_step_spec _ _ _ _ _ _ _ _ _ _ _ hstep with
          ⟨hA1, hA2, _, _⟩ | ⟨hB1, hB2, hB3, _⟩ | ⟨hC1, hC2, hC3⟩
        · constructor
          · intro ht; exact ⟨by rw [← hA1, ht], hA2⟩
          · intro hf; exact Or.inl ⟨by rw [← hA1, hf], hA2⟩
        · constructor
          · intro _; exact ⟨hB1, hB3⟩
          · intro hf; rw [hf] at hB2; cases hB2
        · constructor
          · intro ht; rw [ht] at hC2; cases hC2
          · intro _; exact Or.inr ⟨hC1, hC3⟩
      · obtain ⟨iht, ihf⟩ := ih g1 tc1 (seen ++ [cn]) am1 g' am' h
        rcases walk_step_spec _ _ _ _ _ _ _ _ _ _ _ hstep with
          ⟨hA1, hA2, _, _⟩ | ⟨hB1, hB2, hB3, _⟩ | ⟨hC1, hC2, hC3⟩
        · constructor
          · intro ht
            obtain ⟨ham1, hinc⟩ := iht ht
            exact ⟨by rw [← hA1, ham1], by rw [hinc, hA2]⟩
          · intro hf
            rcases ihf hf with ⟨ham1, hinc⟩ | ⟨ham1, hinc⟩
            · exact Or.inl ⟨by rw [← hA1, ham1], by rw [hinc, hA2]⟩
            · exact Or.inr ⟨by rw [← hA1, ham1], by rw [hinc, hA2]⟩
        · constructor
          · intro ht
            obtain ⟨_, hinc⟩ := iht ht
            exact ⟨hB1, by rw [hinc, hB3]⟩
          · intro hf
            rcases ihf hf with ⟨ham1, _⟩ | ⟨_, hinc⟩
            · rw [ham1] at hB2; cases hB2
            · exact Or.inr ⟨hB1, by rw [hinc, hB3]⟩
        · constructor
          · intro ht
            obtain ⟨ham1, _⟩ := iht ht
            rw [ham1] at hC2; cases hC2
          · intro hf
            rcases ihf hf with ⟨_, hinc⟩ | ⟨ham1, _⟩
            · exact Or.inr ⟨hC1, by rw [hinc, hC3]⟩
            · rw [ham1] at hC2; cases hC2

/- The distinct-dependent budget, threaded through the loop: while
`allow_more` holds, either no `allow_check` has run yet for this root
(`dep_map[name]` still empty) or the last check left the key count plus the
pending list within the budget. -/

theorem walk_loop_budget (ck : Checker) (md : Int) (name : String) :
    ∀ (fuel : Nat) (g : GSt) (tc seen : List String) (am : Bool) (g' : GSt)
      (am' : Bool),
    walk_loop ck md name fuel g tc seen am = some (g', am') →
    (am = true → ((dcount (rootKeys g name ++ tc) : Int) ≤ md ∨
      rootMapOf g name = [])) →
    (am' = true → ((dcount (rootKeys g' name) : Int) ≤ md ∨
      rootMapOf g' name = [])) := by
  intro fuel
  induction fuel with
  | zero => intro g tc seen am g' am' h; simp [walk_loop] at h
  | succ n ih =>
    intro g tc seen am g' am' h hpre
    cases tc with
    | nil => simp [walk_loop] at h
    | cons cn rest =>
      simp only [walk_loop] at h
      rcases hstep : walk_step ck md name g cn rest seen am with ⟨g1, am1, tc1⟩
      simp only [hstep] at h
      split at h
      case isTrue htc1 =>
        simp only [Option.some.injEq, Prod.mk.injEq] at h
        obtain ⟨h1, h2⟩ := h
        subst h1
        subst h2
        intro ht
        rcases walk_step_spec _ _ _ _ _ _ _ _ _ _ _ hstep with
          ⟨hA1, _, _, hAr⟩ | ⟨_, _, _, hBb⟩ | ⟨_, hC2, _⟩
        · have ham : am = true := by rw [← hA1, ht]
          rcases hAr with hAr | hAr
          · rcases hpre ham with hb | hb
            · left
              have h1 : dcount (rootKeys g1 name) ≤
                  dcount (rootKeys g name ++ cn :: rest) := by
                calc dcount (rootKeys g1 name)
                    = dcount (rootKeys g name) := by
                      simp [rootKeys, hAr]
                  _ ≤ dcount (rootKeys g name ++ cn :: rest) := dcount_left _ _
              omega
            · right
              rw [hAr, hb]
          · rw [hAr] at ham; cases ham
        · left
          rw [htc1, List.append_nil] at hBb
          exact hBb
        · rw [ht] at hC2; cases hC2
      case isFalse htc1 =>
        refine ih g1 tc1 (seen ++ [cn]) am1 g' am' h ?_
        intro ham1
        rcases walk_step_spec _ _ _ _ _ _ _ _ _ _ _ hstep with
          ⟨hA1, _, hAtc, hAr⟩ | ⟨_, _, _, hBb⟩ | ⟨_, hC2, _⟩
        · have ham : am = true := by rw [← hA1, ham1]
          rcases hAr with hAr | hAr
          · rcases hpre ham with hb | hb
            · left
              have h1 : dcount (rootKeys g1 name ++ tc1) ≤
                  dcount (rootKeys g name ++ cn :: rest) := by
                calc dcount (rootKeys g1 name ++ tc1)
                    = dcount (rootKeys g name ++ rest) := by
                      rw [hAtc]; simp [rootKeys, hAr]
                  _ ≤ dcount (rootKeys g name ++ cn :: rest) := dcount_pop _ _ _
              omega
            · right
              rw [hAr, hb]
          · rw [hAr] at ham; cases ham
        · left
          exact hBb
        · rw [ham1] at hC2; cases hC2

/-- C3 (amended): for a non-negative budget, a root is in `incomplete`
exactly when its walk flipped `allow_more` (truncation fired), and when no
truncation fired the distinct key count of `dep_map[name]` is within
`max_deps`.  (After truncation the key count may exceed the budget — see the
counterexample — because `allow_check` merges every batch of edges into
`dep_map[name]` before and regardless of the budget check; only the pending
`to_check` list is truncated.) -/
theorem c3_budget_amended (ck : Checker) (md : Int) (fuel : Nat) (g : GSt)
    (name : String) (g' : GSt) (am' : Bool)
    (hmd : 0 ≤ md) (hn : name ∉ g.incomplete)
    (h : walk_root ck md fuel g name = some (g', am')) :
    (name ∈ g'.incomplete ↔ am' = false) ∧
    (am' = true → ((rootKeys g' name).toFinset.card : Int) ≤ md) := by
  simp only [walk_root] at h
  obtain ⟨iht, ihf⟩ := walk_loop_inc_am ck md name fuel _ _ _ _ _ _ h
  have hbud := walk_loop_budget ck md name fuel _ _ _ _ _ _ h
  constructor
  · cases am' with
    | true =>
      obtain ⟨-, hinc⟩ := iht rfl
      have hinc' : g'.incomplete = g.incomplete := hinc
      simp [hinc', hn]
    | false =>
      rcases ihf rfl with ⟨hcontra, -⟩ | ⟨-, hinc⟩
      · cases hcontra
      · have hinc' : g'.incomplete = g.incomplete ++ [name] := hinc
        simp [hinc']
  · intro ht
    have hpre : (true : Bool) = true →
        ((dcount (rootKeys { g with
          depChain := alSet g.depChain name [],
          depMap := alSet g.depMap name [] } name ++ [name]) : Int) ≤ md ∨
        rootMapOf { g with
          depChain := alSet g.depChain name [],
          depMap := alSet g.depMap name [] } name = []) := by
      intro _
      right
      simp [rootMapOf, alGet_alSet_self]
    rcases hbud hpre ht with hb | hb
    · simpa [dcount] using hb
    · simp [rootKeys, hb]
      omega

/-- C4 (amended): the ignore list starts as exactly `rpm_pkg_names` (the
binary names of all requested roots), and a root's walk only appends to it
in place — so the names of the requested roots' binaries remain the initial
segment of the shared list, and every root after the first additionally sees
the source names discovered during the earlier walks (the list is never
reset between roots). -/
theorem c4_ignore_amended (ck : Checker) (md : Int) (fuel : Nat) (g : GSt)
    (name : String) (g' : GSt) (am' : Bool) (rpmNames : List String)
    (h : walk_root ck md fuel g name = some (g', am')) :
    (initGSt rpmNames).ignore = rpmNames ∧
    g'.ignore.take g.ignore.length = g.ignore := by
  refine ⟨rfl, ?_⟩
  simp only [walk_root] at h
  obtain ⟨ext, hext⟩ := walk_loop_ignore ck md name fuel _ _ _ _ _ _ h
  have hext' : g'.ignore = g.ignore ++ ext := hext
  rw [hext']
  exact List.take_left _ _

/-- C8: a requested root with no binaries in the index is appended to
`not_in_repo`, its `dep_map[name]` is initialized and stays empty, it is not
marked incomplete (`allow_more` stays true), and the walk returns normally
so the remaining roots are processed. -/
theorem c8_absent_root (ck : Checker) (md : Int) (fuel : Nat) (g : GSt)
    (root : String) (h : alGet ck.bySrc root = none) (hf : 1 ≤ fuel) :
    walk_root ck md fuel g root = some
      ({ g with
          depChain := alSet g.depChain root []
          depMap := alSet g.depMap root []
          notInRepo := g.notInRepo ++ [root] }, true) := by
  obtain ⟨n, rfl⟩ : ∃ n, fuel = n + 1 := ⟨fuel - 1, by omega⟩
  simp only [walk_root, walk_loop, walk_step,
    find_dependent_packages_absent ck root _ _ h]
  simp

/-- One root's walk appends at most its own name to `incomplete`. -/
theorem walk_root_incomplete (ck : Checker) (md : Int) (fuel : Nat) (g : GSt)
    (name : String) (g' : GSt) (am' : Bool)
    (h : walk_root ck md fuel g name = some (g', am')) :
    g'.incomplete = g.incomplete ∨
    g'.incomplete = g.incomplete ++ [name] := by
  simp only [walk_root] at h
  obtain ⟨iht, ihf⟩ := walk_loop_inc_am ck md name fuel _ _ _ _ _ _ h
  cases am' with
  | true =>
    obtain ⟨-, hinc⟩ := iht rfl
    exact Or.inl hinc
  | false =>
    rcases ihf rfl with ⟨hcontra, -⟩ | ⟨-, hinc⟩
    · cases hcontra
    · exact Or.inr hinc

/-- Distinct roots keep `incomplete` duplicate-free through the outer loop
of `build_dep_map`. -/
theorem build_go_nodup (ck : Checker) (md : Int) (fuel : Nat) :
    ∀ (roots : List String) (g : GSt) (g' : GSt),
    roots.Nodup → (∀ x ∈ g.incomplete, x ∉ roots) → g.incomplete.Nodup →
    build_dep_map_go ck md fuel roots g = some g' →
    g'.incomplete.Nodup := by
  intro roots
  induction roots with
  | nil =>
    intro g g' _ _ hnd h
    simp only [build_dep_map_go, Option.some.injEq] at h
    rw [← h]
    exact hnd
  | cons r rest ih =>
    intro g g' hnodup hdisj hnd h
    simp only [build_dep_map_go] at h
    cases hw : walk_root ck md fuel g r with
    | none => rw [hw] at h; cases h
    | some pr =>
      rw [hw] at h
      have hw' : walk_root ck md fuel g r = some (pr.1, pr.2) := by rw [hw]
      have hip := walk_root_incomplete ck md fuel g r pr.1 pr.2 hw'
      refine ih pr.1 g' (List.Nodup.of_cons hnodup) ?_ ?_ h
      · intro x hx
        rcases hip with hinc | hinc
        · rw [hinc] at hx
          intro hr
          exact hdisj x hx (List.mem_cons_of_mem _ hr)
        · rw [hinc] at hx
          rcases List.mem_append.mp hx with hx2 | hx2
          · intro hr
            exact hdisj x hx2 (List.mem_cons_of_mem _ hr)
          · have hxr : x = r := by simpa using hx2
            subst hxr
            exact (List.nodup_cons.mp hnodup).1
      · rcases hip with hinc | hinc
        · rw [hinc]; exact hnd
        · rw [hinc]
          rw [List.nodup_append]
          refine ⟨hnd, List.nodup_singleton r, ?_⟩
          intro x hx hxr
          have hxr2 : x = r := by simpa using hxr
          subst hxr2
          exact hdisj x hx (List.mem_cons_self _ _)

/-- C10: when the requested root names are distinct, the `incomplete` list
returned by `recursive_deps` is duplicate-free: the truncation branch runs
at most once per root (it freezes `allow_more`), and no other root appends a
foreign name. -/
theorem c10_incomplete_each_root_once (repo : Repo) (packages : List String)
    (md : Int) (fuel : Nat) (g' : GSt)
    (hp : packages.Nodup)
    (h : recursive_deps repo packages md fuel = Except.ok (some g')) :
    g'.incomplete.Nodup := by
  simp only [recursive_deps] at h
  cases hck : mkChecker repo with
  | error e => rw [hck] at h; cases h
  | ok ck =>
    rw [hck] at h
    simp only [Except.ok.injEq] at h
    simp only [build_dep_map] at h
    refine build_go_nodup ck md fuel (sortStrings packages) (initGSt _) g'
      ?_ ?_ ?_ h
    · exact (List.perm_insertionSort _ packages).symm.nodup hp
    · intro x hx
      simp [initGSt] at hx
    · simp [initGSt]

/- Fatality of a failed source resolution during index construction. -/

theorem create_mapping_go_err (repo : Repo) :
    ∀ (l : List Package)
      (acc : List (Package × Package) × List (String × List Package)),
    (∃ p ∈ l, p.arch ≠ "src" ∧ (srpm repo p).toOption = none) →
    (List.foldlM (create_mapping_step repo) acc l).toOption = none := by
  intro l
  induction l with
  | nil =>
    intro acc h
    rcases h with ⟨p, hp, -⟩
    cases hp
  | cons q rest ih =>
    intro acc h
    rw [List.foldlM_cons]
    cases hs : create_mapping_step repo acc q with
    | error e => rfl
    | ok acc2 =>
      show (List.foldlM (create_mapping_step repo) acc2 rest).toOption = none
      apply ih
      rcases h with ⟨p, hp, harch, hsr⟩
      rcases List.mem_cons.mp hp with rfl | hp2
      · exfalso
        simp only [create_mapping_step] at hs
        split at hs
        · exact harch (by assumption)
        · cases hval : srpm repo p with
          | error e2 => rw [hval] at hs; cases hs
          | ok s => rw [hval] at hsr; cases hsr
      · exact ⟨p, hp2, harch, hsr⟩

/-- C2: as soon as one binary package's declared source reference has no
exact name/version/release match in the `src` subset of the snapshot, the
whole run fails: `srpm_nvr_object` exits, index construction propagates the
failure, and `recursive_deps` produces no walk result. -/
theorem c2_source_not_found_fatal (repo : Repo) (packages : List String)
    (md : Int) (fuel : Nat) (pkg : Package) (n v r : String)
    (hmem : pkg ∈ repo.pkgs) (harch : pkg.arch ≠ "src")
    (hparse : parseSourcerpm pkg.sourcerpm = some (n, v, r))
    (hmiss : repo.pkgs.filter (srcMatch n v r) = []) :
    (recursive_deps repo packages md fuel).toOption = none := by
  have hsr : (srpm repo pkg).toOption = none := by
    simp only [srpm, hparse, srpm_nvr_object, hmiss]
    rfl
  have hcm : (create_mapping repo).toOption = none :=
    create_mapping_go_err repo repo.pkgs ([], []) ⟨pkg, hmem, harch, hsr⟩
  simp only [recursive_deps, mkChecker]
  cases hc : create_mapping repo with
  | error e => rfl
  | ok m =>
    rw [hc] at hcm
    cases hcm

/-- C5: the elision step never records a requirer for a symbol that still
has a surviving provider — a provider that is neither named in the ignore
list nor one of the removal candidate's own binaries makes the
`find_dependent_packages` loop body contribute nothing for that symbol, in
both the `find_unblocked_orphans.py` and the `deep_checker.py` variant. -/
theorem c5_elision_correct (ck : Checker) (base : String)
    (dep : List (Package × List String)) (ignore : List String)
    (prov srpmname : String) (rpms : List Package) (b p : Package)
    (_hb : b ∈ rpms) (_hbp : b ∈ ck.filterProvides base)
    (hp : p ∈ ck.filterProvides base) (h1 : p.name ∉ ignore)
    (h2 : p ∉ rpms) :
    elide ck base dep ignore prov rpms srpmname = [] ∧
    method_name23 ck base dep ignore prov rpms srpmname = dep := by
  have hsurv : providerSurvives ck base ignore rpms = true := by
    apply List.any_eq_true.mpr
    exact ⟨p, hp, by simp [h1, h2]⟩
  constructor <;> simp [elide, method_name23, hsurv]

/- Fetch counting for the sequential projection of the worker loop. -/

theorem worker_drain_count (nm : String) :
    ∀ (q c f : List String),
    (worker_drain q c f).2.count nm =
      f.count nm + (if nm ∈ q ∧ nm ∉ c then 1 else 0) := by
  intro q
  induction q with
  | nil => intro c f; simp [worker_drain]
  | cons p rest ih =>
    intro c f
    simp only [worker_drain]
    by_cases hpc : p ∈ c
    · rw [if_pos hpc, ih]
      have hiff : (nm ∈ rest ∧ nm ∉ c) ↔ (nm ∈ p :: rest ∧ nm ∉ c) := by
        constructor
        · rintro ⟨hm, hnc⟩
          exact ⟨List.mem_cons_of_mem _ hm, hnc⟩
        · rintro ⟨hm, hnc⟩
          rcases List.mem_cons.mp hm with rfl | hm2
          · exact absurd hpc hnc
          · exact ⟨hm2, hnc⟩
      rw [if_congr hiff rfl rfl]
    · rw [if_neg hpc, ih]
      by_cases hnp : nm = p
      · subst hnp
        have hmemext : ¬ (nm ∈ rest ∧ nm ∉ c ++ [nm]) := by simp
        have hcount : (f ++ [nm]).count nm = f.count nm + 1 := by
          rw [List.count_append]
          simp [List.count_cons]
        have hhead : (nm ∈ nm :: rest ∧ nm ∉ c) :=
          ⟨List.mem_cons_self _ _, hpc⟩
        rw [hcount, if_neg hmemext, if_pos hhead]
      · have hcount : (f ++ [p]).count nm = f.count nm := by
          rw [List.count_append]
          simp [List.count_cons, hnp]
        have hiff : (nm ∈ rest ∧ nm ∉ c ++ [p]) ↔
            (nm ∈ p :: rest ∧ nm ∉ c) := by
          simp only [List.mem_append, List.mem_cons, List.mem_singleton]
          constructor
          · rintro ⟨hm, hnc⟩
            exact ⟨Or.inr hm, fun hc2 => hnc (Or.inl hc2)⟩
          · rintro ⟨hm, hnc⟩
            rcases hm with rfl | hm2
            · exact absurd rfl hnp
            · refine ⟨hm2, ?_⟩
              rintro (hc2 | rfl | hnil)
              · exact hnc hc2
              · exact hnp rfl
              · cases hnil
        rw [hcount, if_congr hiff rfl rfl]

/-- C7 (amended): when the queue is drained without another worker
interleaving between the `not in pagure_dict` check and the store — the
sequential projection of `pagure_worker` — a name enqueued any number of
times is fetched exactly once (and a name never enqueued is never fetched).
Under the two-worker interleaving this fails; see the counterexample. -/
theorem c7_fetch_once_sequential (queue : List String) (nm : String) :
    (worker_drain queue [] []).2.count nm =
      if nm ∈ queue then 1 else 0 := by
  rw [worker_drain_count]
  simp

/-- C9 (amended): the persisted object is independent of the write outcome
(an `OSError` is logged, not propagated); its `status_change` member covers
exactly the *requested orphans* that are present in the enrichment cache —
an enriched name outside the orphans list is omitted (see the
counterexample) — mapping each to the rendering of its status-change value;
and `affected_packages` maps every `dep_chain` entry to its sorted reason
list. -/
theorem c9_save_to_json_amended (writeOk : Bool) (now : Int)
    (orphans : List String) (pd : List (String × Option PkgInfo))
    (dc : List (String × List String)) (p ts : String) (l : List String) :
    ((save_to_json true now orphans pd dc).2 =
      (save_to_json false now orphans pd dc).2) ∧
    (p ∈ (save_to_json writeOk now orphans pd dc).2.status_change.map
        Prod.fst ↔ p ∈ orphans ∧ (alGet pd p).isSome = true) ∧
    ((p, ts) ∈ (save_to_json writeOk now orphans pd dc).2.status_change →
      ts = toString (status_change_val now ((alGet pd p).getD none))) ∧
    ((save_to_json writeOk now orphans pd dc).2.affected_packages =
      dc.map (fun q => (q.1, sortStrings q.2))) ∧
    List.Sorted (fun a b => strLe a b = true) (sortStrings l) := by
  refine ⟨rfl, ?_, ?_, rfl, ?_⟩
  · simp [save_to_json, save_to_json_data, List.mem_filter]
  · intro hmem
    simp only [save_to_json, save_to_json_data, List.mem_map,
      List.mem_filter, Prod.mk.injEq] at hmem
    obtain ⟨a, ⟨-, -⟩, hap, hts⟩ := hmem
    subst hap
    exact hts.symm
  · simp only [sortStrings]
    exact List.sorted_insertionSort _ l

/- ### Witnesses -/

/-- Witness for C2: the snapshot `repoC2` contains the binary `binX` with
source reference `binX-1-1.src.rpm` and no matching source package, and the
run produces no walk result. -/
theorem c2_source_not_found_fatal_witness :
    (recursive_deps repoC2 ["x"] 20 10).toOption = none :=
  c2_source_not_found_fatal repoC2 ["x"] 20 10 binX "binX" "1" "1"
    (by decide) (by decide) (by decide) (by decide)

/-- Witness for the amended C3, at the truncation run of the budget
scenario. -/
theorem c3_budget_amended_witness :
    ("r" ∈ gC3r.incomplete ↔ false = false) ∧
    (false = true → ((rootKeys gC3r "r").toFinset.card : Int) ≤ 1) :=
  c3_budget_amended ckB 1 10 (initGSt ["binR"]) "r" gC3r false
    (by decide) (by decide) (by decide)

/-- Witness for the amended C4, at root `a`'s walk of the shared-ignore
scenario. -/
theorem c4_ignore_amended_witness :
    (initGSt ["binA", "binBb"]).ignore = ["binA", "binBb"] ∧
    gC4.ignore.take 2 = ["binA", "binBb"] :=
  c4_ignore_amended ckA 20 10 (initGSt ["binA", "binBb"]) "a" gC4 true
    ["binA", "binBb"] (by decide)

/-- Witness for C5: `a` is provided both by `binS` (a binary of `s`) and by
the surviving `binOther`, so nothing is recorded for it. -/
theorem c5_elision_correct_witness :
    elide ckC5 "a" [(reqA, ["x"])] [] "a" [binS] "s" = [] ∧
    method_name23 ckC5 "a" [(reqA, ["x"])] [] "a" [binS] "s" =
      [(reqA, ["x"])] :=
  c5_elision_correct ckC5 "a" [(reqA, ["x"])] [] "a" "s" [binS] binS binOther
    (by decide) (by decide) (by decide) (by decide) (by decide)

/-- Witness for C8: the root `ghost` is absent from the shared-ignore
scenario's index. -/
theorem c8_absent_root_witness :
    walk_root ckA 20 10 (initGSt ["binA", "binBb"]) "ghost" = some
      ({ initGSt ["binA", "binBb"] with
          depChain := alSet (initGSt ["binA", "binBb"]).depChain "ghost" []
          depMap := alSet (initGSt ["binA", "binBb"]).depMap "ghost" []
          notInRepo := (initGSt ["binA", "binBb"]).notInRepo ++ ["ghost"] },
        true) :=
  c8_absent_root ckA 20 10 (initGSt ["binA", "binBb"]) "ghost"
    (by decide) (by decide)

/-- Witness for C10, on the well-formed one-package snapshot. -/
theorem c10_incomplete_each_root_once_witness : gW.incomplete.Nodup :=
  c10_incomplete_each_root_once repoW ["binW"] 20 10 gW (by decide)
    (by decide)

/-- Witness for the amended C9, at the persistence scenario. -/
theorem c9_save_to_json_amended_witness :
    ((save_to_json true 0 ["a"] pdC9 dcC9).2 =
      (save_to_json false 0 ["a"] pdC9 dcC9).2) ∧
    ("a" ∈ (save_to_json true 0 ["a"] pdC9 dcC9).2.status_change.map
        Prod.fst ↔ "a" ∈ ["a"] ∧ (alGet pdC9 "a").isSome = true) ∧
    (("a", "100") ∈ (save_to_json true 0 ["a"] pdC9 dcC9).2.status_change →
      "100" = toString (status_change_val 0 ((alGet pdC9 "a").getD none))) ∧
    ((save_to_json true 0 ["a"] pdC9 dcC9).2.affected_packages =
      dcC9.map (fun q => (q.1, sortStrings q.2))) ∧
    List.Sorted (fun a b => strLe a b = true) (sortStrings ["b", "a"]) :=
  c9_save_to_json_amended true 0 ["a"] pdC9 dcC9 "a" "100" ["b", "a"]
